import Mathlib

/-!
Verification of the fold / visibility / scrolling engine of ScreenWindow
(src/ScreenWindow.cpp, src/ScreenWindow.h).

QBitArray is modelled as a List Bool:
  testBit i        -> l.getD i false
  setBit i v       -> l.set i v
  fill v           -> List.replicate l.length v
  fill v size      -> List.replicate size v   (Qt resizes then fills every bit)
  resize n         -> resizeBits l n          (truncate, or pad with false)
  count            -> l.length
  count true       -> l.count true
The Screen and the text decoder are external collaborators; they enter only
through numeric parameters (histLines, lines, cursorY) and through a match
oracle for the filter (the result of decoding a line and testing whether it
contains the pattern).
-/

namespace Konsole

/-- QBitArray.resize: keep the prefix, pad with false bits. -/
def resizeBits : List Bool → Nat → List Bool
  | _, 0 => []
  | [], n + 1 => false :: resizeBits [] n
  | b :: l, n + 1 => b :: resizeBits l n

/-- Qt qBound(lo, v, hi) = qMax(lo, qMin(hi, v)). -/
def qBound (lo v hi : Int) : Int := max lo (min hi v)

/-- State of the Folds support class: the four bit arrays, the enabled flag
and the cached visible line count. -/
structure Folds where
  _enabled : Bool
  _foldStarts : List Bool
  _foldEnds : List Bool
  _expanded : List Bool
  _filteredLines : List Bool
  _visibleLines : Nat
deriving Repr, DecidableEq

/-- A fresh Folds object as the spec assumes it: empty bit arrays, folding
disabled.  (The C++ class leaves _enabled and _visibleLines uninitialised;
removeAll and the first setLineCount establish exactly this state.) -/
def Folds.init : Folds :=
  { _enabled := false, _foldStarts := [], _foldEnds := [], _expanded := [],
    _filteredLines := [], _visibleLines := 0 }

/-- Folds::setLineCount: resize the four bit arrays when the stored length
differs; the filtered-lines bitmap is refilled with true over the new size. -/
def Folds.setLineCount (f : Folds) (size : Nat) : Folds :=
  if f._foldStarts.length ≠ size then
    { f with _foldStarts := resizeBits f._foldStarts size,
             _foldEnds := resizeBits f._foldEnds size,
             _filteredLines := List.replicate size true,
             _expanded := resizeBits f._expanded size }
  else f

/-- Folds::setFold: set both boundary bits to the given value and clear the
expanded bit of the start line; enables folding. -/
def Folds.setFold (f : Folds) (startLine endLine : Nat) (fold : Bool) : Folds :=
  { f with _enabled := true,
           _foldStarts := f._foldStarts.set startLine fold,
           _foldEnds := f._foldEnds.set endLine fold,
           _expanded := f._expanded.set startLine false }

/-- Folds::removeAll: clear every bit array (filtered lines back to all
visible) and disable folding. -/
def Folds.removeAll (f : Folds) : Folds :=
  { f with _enabled := false,
           _foldStarts := List.replicate f._foldStarts.length false,
           _foldEnds := List.replicate f._foldEnds.length false,
           _filteredLines := List.replicate f._filteredLines.length true,
           _expanded := List.replicate f._expanded.length false }

/-- Folds::isLineVisible. -/
def Folds.isLineVisible (f : Folds) (line : Nat) : Bool :=
  f._filteredLines.getD line false

/-- Folds::visibleLineCount. -/
def Folds.visibleLineCount (f : Folds) : Nat :=
  if f._enabled then f._visibleLines else f._filteredLines.length

/-- Folds::count. -/
def Folds.count (f : Folds) : Nat :=
  if f._enabled then f._foldStarts.count true else 0

/-- Loop state of Folds::updateVisibleLines: the visibility bitmap being
written, the stack of enclosing-fold open flags, the running
stackHasClosedFold flag, and a marker recording whether the loop ever popped
an empty stack (undefined behaviour of QStack::pop in the source). -/
structure ScanState where
  filtered : List Bool
  stack : List Bool
  hasClosed : Bool
  emptyPop : Bool
deriving Repr, DecidableEq

/-- The fold-start half of one loop iteration of updateVisibleLines. -/
def pushPhase (fs ex : List Bool) (st : ScanState) (i : Nat) : ScanState :=
  if fs.getD i false then
    { st with stack := ex.getD i false :: st.stack,
              hasClosed := if !(ex.getD i false) then true else st.hasClosed }
  else st

/-- The fold-end half of one loop iteration of updateVisibleLines.  Popping
an empty stack is undefined in the source; the model records it in emptyPop
and leaves the stack empty. -/
def popPhase (fe : List Bool) (st : ScanState) (i : Nat) : ScanState :=
  if fe.getD i false then
    match st.stack with
    | [] => { st with emptyPop := true, hasClosed := false }
    | _ :: rest => { st with stack := rest, hasClosed := rest.contains false }
  else st

/-- One iteration of the updateVisibleLines loop: write the visibility of
line i from the current flag, then process a fold start, then a fold end. -/
def scanLine (fs fe ex : List Bool) (st : ScanState) (i : Nat) : ScanState :=
  popPhase fe
    (pushPhase fs ex { st with filtered := st.filtered.set i (!st.hasClosed) } i) i

/-- The whole linear pass of Folds::updateVisibleLines, returning the final
loop state (bitmap, stack, flags). -/
def scanFolds (f : Folds) : ScanState :=
  let n := f._filteredLines.length
  (List.range n).foldl (scanLine f._foldStarts f._foldEnds f._expanded)
    { filtered := List.replicate n true, stack := [], hasClosed := false,
      emptyPop := false }

/-- Folds::updateVisibleLines: store the recomputed bitmap and cache the
count of true bits. -/
def Folds.updateVisibleLines (f : Folds) : Folds :=
  let s := scanFolds f
  { f with _filteredLines := s.filtered, _visibleLines := s.filtered.count true }

/-- The external Screen collaborator: only the quantities ScreenWindow reads
from it. -/
structure Screen where
  histLines : Nat
  lines : Nat
  columns : Nat
  cursorY : Nat
deriving Repr, DecidableEq

/-- State of ScreenWindow (the fields the verified operations touch). -/
structure ScreenWindow where
  _screen : Screen
  _folds : Folds
  _windowLines : Nat
  _currentLine : Int
  _trackOutput : Bool
  _scrollCount : Int
  _bufferNeedsUpdate : Bool
  _filterNeedsUpdate : Bool

/-- ScreenWindow::lineCount = histLines + screen lines. -/
def ScreenWindow.lineCount (w : ScreenWindow) : Nat :=
  w._screen.histLines + w._screen.lines

/-- ScreenWindow::visibleLineCount. -/
def ScreenWindow.visibleLineCount (w : ScreenWindow) : Nat :=
  if w._folds.count > 0 then w._folds.visibleLineCount else w.lineCount

/-- ScreenWindow::currentLine: the stored top line bounded by
qBound(0, _currentLine, visibleLineCount() - windowLines()). -/
def ScreenWindow.currentLine (w : ScreenWindow) : Int :=
  qBound 0 w._currentLine ((w.visibleLineCount : Int) - (w._windowLines : Int))

/-- ScreenWindow::scrollTo: clamp the target with
qBound(0, line, lineCount() - windowLines()), store it, and accumulate the
delta from the previously stored top line into the scroll counter. -/
def ScreenWindow.scrollTo (w : ScreenWindow) (line : Int) : ScreenWindow :=
  let maxCurrentLineNumber : Int := (w.lineCount : Int) - (w._windowLines : Int)
  let line' := qBound 0 line maxCurrentLineNumber
  let delta := line' - w._currentLine
  { w with _currentLine := line',
           _scrollCount := w._scrollCount + delta,
           _bufferNeedsUpdate := true }

/-- Loop body state of ScreenWindow::createFilterFolds: the folds being
built and the pending fold start (int, initially -1). -/
def filterStep (matchLine : Nat → Bool) (n : Nat) (st : Folds × Int) (i : Nat) :
    Folds × Int :=
  if matchLine i || i == 0 || i == n - 1 then
    let folds := if i ≠ 0 then st.1.setFold st.2.toNat (i - 1) true else st.1
    (folds, (i : Int))
  else st

/-- ScreenWindow::createFilterFolds.  The pattern test on each decoded line
is the external match oracle; filterEmpty stands for filter.isEmpty().
The fold-start variable is an int initialised to -1 in the source; it is
only passed to setFold after the first boundary (line 0) has set it, so the
toNat coercion in filterStep is exact at every call. -/
def ScreenWindow.createFilterFolds (w : ScreenWindow) (filterEmpty : Bool)
    (matchLine : Nat → Bool) : ScreenWindow :=
  let folds := (w._folds.setLineCount w.lineCount).removeAll
  if filterEmpty then { w with _folds := folds, _filterNeedsUpdate := false }
  else
    let n := w.lineCount
    let final := (List.range n).foldl (filterStep matchLine n) (folds, (-1 : Int))
    { w with _folds := final.1, _filterNeedsUpdate := false }

/-- The first loop of ScreenWindow::getFilteredImage: advance startFrom
until the count of visible-or-cursor lines exceeds startLine.  fuel is the
remaining number of iterations (lineCount minus lines already examined). -/
def startFromGo (vis : Nat → Bool) (cursor startLine : Nat) :
    Nat → Nat → Nat → Nat → Nat
  | 0, _, _, sf => sf
  | fuel + 1, i, vc, sf =>
    let vc' := if vis i || i == cursor then vc + 1 else vc
    if vc' > startLine then sf
    else startFromGo vis cursor startLine fuel (i + 1) vc' (sf + 1)

/-- The copy loop of ScreenWindow::getFilteredImage: starting at line i,
collect the buffer indices of the visible-or-cursor lines copied into the
window, stopping after rows copies or at the end of the buffer. -/
def copyLinesGo (vis : Nat → Bool) (cursor n rows : Nat) :
    Nat → Nat → Nat → List Nat
  | 0, _, _ => []
  | fuel + 1, i, cnt =>
    if cnt < rows ∧ i < n then
      if vis i || i == cursor then
        i :: copyLinesGo vis cursor n rows fuel (i + 1) (cnt + 1)
      else copyLinesGo vis cursor n rows fuel (i + 1) cnt
    else []

/-- ScreenWindow::getFilteredImage: refresh the folds (setLineCount then
updateVisibleLines), then copy the visible-or-cursor lines for the window
rows startLine..endLine.  The result is the refreshed folds plus the list
of buffer line indices whose cells are copied, in copy order. -/
def ScreenWindow.getFilteredImage (w : ScreenWindow) (startLine endLine : Nat) :
    Folds × List Nat :=
  let n := w.lineCount
  let folds := (w._folds.setLineCount n).updateVisibleLines
  let cursorLine := w._screen.histLines + w._screen.cursorY
  let startFrom := startFromGo folds.isLineVisible cursorLine startLine n 0 0 0
  let rows := endLine - startLine + 1
  (folds, copyLinesGo folds.isLineVisible cursorLine n rows n startFrom 0)

/-- A 10-line buffer with no history, cursor on row c, a 10-line window at
the top: the configuration of the C5 test scenario. -/
def c5Window (c : Nat) : ScreenWindow :=
  { _screen := { histLines := 0, lines := 10, columns := 80, cursorY := c },
    _folds := Folds.init, _windowLines := 10, _currentLine := 0,
    _trackOutput := true, _scrollCount := 0,
    _bufferNeedsUpdate := true, _filterNeedsUpdate := true }

/-- Abstract description of one fold: start line fs, end line fe, expanded
flag exp.  A Folds bitmap state encodes a list of these. -/
structure FoldRange where
  fs : Nat
  fe : Nat
  exp : Bool
deriving Repr, DecidableEq

/-- Two folds are properly related: disjoint or strictly nested (in
particular they share no boundary line). -/
def ProperPair (a b : FoldRange) : Prop :=
  b.fe < a.fs ∨ a.fe < b.fs ∨ (a.fs < b.fs ∧ b.fe < a.fe) ∨ (b.fs < a.fs ∧ a.fe < b.fe)

instance : DecidableRel ProperPair := fun a b => by unfold ProperPair; infer_instance

/-- A properly nested fold configuration: each fold has start <= end and any
two folds are disjoint or strictly nested. -/
def ProperConfig (L : List FoldRange) : Prop :=
  (∀ g ∈ L, g.fs ≤ g.fe) ∧ L.Pairwise ProperPair

/-- The bit arrays of a Folds state encode exactly the folds of L (within
the scanned range, which is the length of the filtered-lines bitmap). -/
def foldsMatch (f : Folds) (L : List FoldRange) : Prop :=
  (∀ i, i < f._filteredLines.length →
    (f._foldStarts.getD i false = true ↔ ∃ g ∈ L, g.fs = i)) ∧
  (∀ i, i < f._filteredLines.length →
    (f._foldEnds.getD i false = true ↔ ∃ g ∈ L, g.fe = i)) ∧
  (∀ g ∈ L, f._expanded.getD g.fs false = g.exp) ∧
  (∀ g ∈ L, g.fe < f._filteredLines.length)

/-- Line i lies strictly inside some collapsed fold of L: after the start
line and up to and including the end line. -/
def hiddenAt (L : List FoldRange) (i : Nat) : Prop :=
  ∃ g ∈ L, g.exp = false ∧ g.fs < i ∧ i ≤ g.fe

/-- Invariant of the updateVisibleLines loop before iteration i: no empty
pop has happened, lines before i carry their final visibility, lines from i
on are still tentatively visible, the running flag agrees with the stack,
and the stack is the open flags of the folds enclosing line i, innermost
first. -/
def ScanInv (L : List FoldRange) (n i : Nat) (st : ScanState) : Prop :=
  st.emptyPop = false ∧
  st.filtered.length = n ∧
  (∀ j, j < i → (st.filtered.getD j false = true ↔ ¬ hiddenAt L j)) ∧
  (∀ j, i ≤ j → j < n → st.filtered.getD j false = true) ∧
  st.hasClosed = st.stack.contains false ∧
  ∃ gl : List FoldRange,
    st.stack = gl.map FoldRange.exp ∧
    gl.Pairwise (fun a b => b.fs < a.fs) ∧
    (∀ g, g ∈ gl ↔ (g ∈ L ∧ g.fs < i ∧ i ≤ g.fe))

instance (L : List FoldRange) : Decidable (ProperConfig L) := by
  unfold ProperConfig; infer_instance

instance (f : Folds) (L : List FoldRange) : Decidable (foldsMatch f L) := by
  unfold foldsMatch; infer_instance

instance (L : List FoldRange) (i : Nat) : Decidable (hiddenAt L i) := by
  unfold hiddenAt; infer_instance


/-! Helper lemmas about the list-based bit arrays and the scan loop. -/

theorem getD_false_of_le (l : List Bool) (i : Nat) (h : l.length ≤ i) :
    l.getD i false = false := by
  simp [List.getD, List.getElem?_eq_none h]

theorem getD_set_self (l : List Bool) (i : Nat) (v : Bool) (h : i < l.length) :
    (l.set i v).getD i false = v := by
  simp [List.getD, List.getElem?_set_self, h]

theorem getD_set_ne (l : List Bool) (i j : Nat) (v : Bool) (h : i ≠ j) :
    (l.set i v).getD j false = l.getD j false := by
  simp [List.getD, List.getElem?_set_ne h]

theorem getD_replicate_lt (n i : Nat) (v : Bool) (h : i < n) :
    (List.replicate n v).getD i false = v := by
  simp [List.getD, List.getElem?_eq_getElem, h]

theorem getD_replicate_false (n i : Nat) :
    (List.replicate n false).getD i false = false := by
  rcases Nat.lt_or_ge i n with h | h
  · exact getD_replicate_lt n i false h
  · exact getD_false_of_le _ _ (by simpa using h)

theorem resizeBits_length (l : List Bool) (n : Nat) : (resizeBits l n).length = n := by
  induction n generalizing l with
  | zero => cases l <;> rfl
  | succ n ih => cases l <;> simp [resizeBits, ih]

theorem resizeBits_getD (l : List Bool) (n i : Nat) (h : i < n) :
    (resizeBits l n).getD i false = l.getD i false := by
  induction n generalizing l i with
  | zero => omega
  | succ n ih =>
      cases l with
      | nil =>
          cases i with
          | zero => rfl
          | succ i =>
              have hnil : (resizeBits [] n).getD i false = false := by
                rw [ih [] i (by omega)]; simp [List.getD]
              simpa [resizeBits, List.getD_cons_succ] using hnil
      | cons b t =>
          cases i with
          | zero => rfl
          | succ i => simpa [resizeBits] using ih t i (by omega)

theorem count_true_of_all_true (l : List Bool)
    (h : ∀ j, j < l.length → l.getD j false = true) : l.count true = l.length := by
  induction l with
  | nil => rfl
  | cons a t ih =>
      have ha := h 0 (by simp)
      simp only [List.getD] at ha
      simp at ha
      subst ha
      have := ih (fun j hj => by simpa [List.getD] using h (j + 1) (by simpa using hj))
      simp [List.count_cons, this]

theorem foldl_range_inv {β : Type _} (n : Nat) (f : β → Nat → β) (init : β)
    (P : Nat → β → Prop) (h0 : P 0 init)
    (hstep : ∀ i st, i < n → P i st → P (i + 1) (f st i)) :
    P n ((List.range n).foldl f init) := by
  have key : ∀ k, k ≤ n → P k ((List.range k).foldl f init) := by
    intro k
    induction k with
    | zero => intro _; simpa using h0
    | succ k ih =>
        intro hk
        rw [List.range_succ, List.foldl_append]
        exact hstep k _ (by omega) (ih (by omega))
  exact key n le_rfl

theorem properPair_symm {a b : FoldRange} (h : ProperPair a b) : ProperPair b a := by
  unfold ProperPair at h ⊢; omega

theorem properPair_of_mem {L : List FoldRange} (hP : ProperConfig L) {g h : FoldRange}
    (hg : g ∈ L) (hh : h ∈ L) (hne : g ≠ h) : ProperPair g h :=
  List.Pairwise.forall (fun _ _ => properPair_symm) hP.2 hg hh hne

theorem fs_inj {L : List FoldRange} (hP : ProperConfig L) {g h : FoldRange}
    (hg : g ∈ L) (hh : h ∈ L) (he : g.fs = h.fs) : g = h := by
  by_contra hne
  have hpp := properPair_of_mem hP hg hh hne
  have h1 := hP.1 g hg
  have h2 := hP.1 h hh
  unfold ProperPair at hpp
  omega

theorem fe_inj {L : List FoldRange} (hP : ProperConfig L) {g h : FoldRange}
    (hg : g ∈ L) (hh : h ∈ L) (he : g.fe = h.fe) : g = h := by
  by_contra hne
  have hpp := properPair_of_mem hP hg hh hne
  have h1 := hP.1 g hg
  have h2 := hP.1 h hh
  unfold ProperPair at hpp
  omega

theorem pushPhase_inv (L : List FoldRange) (fs ex : List Bool) (n : Nat)
    (hP : ProperConfig L)
    (hMs : ∀ i, i < n → (fs.getD i false = true ↔ ∃ g ∈ L, g.fs = i))
    (hMx : ∀ g ∈ L, ex.getD g.fs false = g.exp)
    (i : Nat) (hi : i < n) (st : ScanState) (gl : List FoldRange)
    (hStack : st.stack = gl.map FoldRange.exp)
    (hPW : gl.Pairwise (fun a b => b.fs < a.fs))
    (hMem : ∀ g, g ∈ gl ↔ (g ∈ L ∧ g.fs < i ∧ i ≤ g.fe))
    (hHC : st.hasClosed = st.stack.contains false) :
    ∃ gl1 : List FoldRange, (pushPhase fs ex st i).stack = gl1.map FoldRange.exp ∧
      gl1.Pairwise (fun a b => b.fs < a.fs) ∧
      (∀ g, g ∈ gl1 ↔ (g ∈ L ∧ g.fs ≤ i ∧ i ≤ g.fe)) ∧
      (pushPhase fs ex st i).hasClosed = (pushPhase fs ex st i).stack.contains false ∧
      (pushPhase fs ex st i).filtered = st.filtered ∧
      (pushPhase fs ex st i).emptyPop = st.emptyPop := by
  by_cases hsb : fs.getD i false = true
  · obtain ⟨g0, hg0L, hg0s⟩ := (hMs i hi).1 hsb
    have hpush : ex.getD i false = g0.exp := by rw [← hg0s]; exact hMx g0 hg0L
    have hg0b : g0.fs ≤ g0.fe := hP.1 g0 hg0L
    have hred : pushPhase fs ex st i =
        { st with stack := ex.getD i false :: st.stack,
                  hasClosed := if !(ex.getD i false) then true else st.hasClosed } := by
      unfold pushPhase
      rw [if_pos hsb]
    refine ⟨g0 :: gl, ?_, ?_, ?_, ?_, ?_, ?_⟩
    · rw [hred]
      show ex.getD i false :: st.stack = _
      rw [hpush, hStack]
      rfl
    · refine List.pairwise_cons.2 ⟨?_, hPW⟩
      intro g hg
      have := ((hMem g).1 hg).2.1
      omega
    · intro g
      constructor
      · intro hg
        rcases List.mem_cons.1 hg with rfl | hg
        · exact ⟨hg0L, by omega, by omega⟩
        · obtain ⟨h1, h2, h3⟩ := (hMem g).1 hg
          exact ⟨h1, by omega, h3⟩
      · rintro ⟨hgL, hle, hge⟩
        rcases Nat.lt_or_ge g.fs i with hlt | hge2
        · exact List.mem_cons.2 (Or.inr ((hMem g).2 ⟨hgL, hlt, hge⟩))
        · have heq : g = g0 := fs_inj hP hgL hg0L (by omega)
          exact List.mem_cons.2 (Or.inl heq)
    · rw [hred]
      cases hob : ex.getD i false <;> simp [hob, hHC, List.contains_cons]
    · rw [hred]
    · rw [hred]
  · have hNoS : ¬∃ g ∈ L, g.fs = i := fun hex => hsb ((hMs i hi).2 hex)
    have hred : pushPhase fs ex st i = st := by
      unfold pushPhase
      rw [if_neg hsb]
    refine ⟨gl, ?_, hPW, ?_, ?_, ?_, ?_⟩
    · rw [hred, hStack]
    · intro g
      rw [hMem g]
      constructor
      · rintro ⟨h1, h2, h3⟩
        exact ⟨h1, by omega, h3⟩
      · rintro ⟨h1, h2, h3⟩
        have hne : g.fs ≠ i := fun he => hNoS ⟨g, h1, he⟩
        exact ⟨h1, by omega, h3⟩
    · rw [hred, hHC]
    · rw [hred]
    · rw [hred]

theorem popPhase_inv (L : List FoldRange) (fe : List Bool) (n : Nat)
    (hP : ProperConfig L)
    (hMe : ∀ i, i < n → (fe.getD i false = true ↔ ∃ g ∈ L, g.fe = i))
    (i : Nat) (hi : i < n) (st1 : ScanState) (gl1 : List FoldRange)
    (hStack : st1.stack = gl1.map FoldRange.exp)
    (hPW : gl1.Pairwise (fun a b => b.fs < a.fs))
    (hMem : ∀ g, g ∈ gl1 ↔ (g ∈ L ∧ g.fs ≤ i ∧ i ≤ g.fe))
    (hHC : st1.hasClosed = st1.stack.contains false) :
    ∃ gl2 : List FoldRange, (popPhase fe st1 i).stack = gl2.map FoldRange.exp ∧
      gl2.Pairwise (fun a b => b.fs < a.fs) ∧
      (∀ g, g ∈ gl2 ↔ (g ∈ L ∧ g.fs < i + 1 ∧ i + 1 ≤ g.fe)) ∧
      (popPhase fe st1 i).hasClosed = (popPhase fe st1 i).stack.contains false ∧
      (popPhase fe st1 i).filtered = st1.filtered ∧
      (popPhase fe st1 i).emptyPop = st1.emptyPop := by
  by_cases heb : fe.getD i false = true
  · obtain ⟨g1, hg1L, hg1e⟩ := (hMe i hi).1 heb
    have hg1b : g1.fs ≤ g1.fe := hP.1 g1 hg1L
    have hg1mem : g1 ∈ gl1 := (hMem g1).2 ⟨hg1L, by omega, by omega⟩
    cases gl1 with
    | nil => exact absurd hg1mem (List.not_mem_nil g1)
    | cons h0 t =>
      have hth : ∀ g ∈ t, g.fs < h0.fs := (List.pairwise_cons.1 hPW).1
      have hh0m : h0 ∈ L ∧ h0.fs ≤ i ∧ i ≤ h0.fe :=
        (hMem h0).1 (List.mem_cons_self h0 t)
      have hh0 : h0 = g1 := by
        by_contra hne
        have hg1t : g1 ∈ t := by
          rcases List.mem_cons.1 hg1mem with h | h
          · exact (hne h.symm).elim
          · exact h
        have hlt : g1.fs < h0.fs := hth g1 hg1t
        have hfe : h0.fe ≠ i := fun he =>
          hne (fe_inj hP hh0m.1 hg1L (by omega))
        have hpp := properPair_of_mem hP hh0m.1 hg1L hne
        have h2 := hh0m.2
        unfold ProperPair at hpp
        omega
      subst hh0
      have hred : popPhase fe st1 i =
          { st1 with stack := t.map FoldRange.exp,
                     hasClosed := (t.map FoldRange.exp).contains false } := by
        unfold popPhase
        rw [if_pos heb, hStack, List.map_cons]
      have hg1nt : h0 ∉ t := fun hgt => absurd (hth h0 hgt) (lt_irrefl _)
      refine ⟨t, ?_, (List.pairwise_cons.1 hPW).2, ?_, ?_, ?_, ?_⟩
      · rw [hred]
      · intro g
        constructor
        · intro hgt
          have hgl1 := (hMem g).1 (List.mem_cons.2 (Or.inr hgt))
          have hgne : g ≠ h0 := fun he => hg1nt (he ▸ hgt)
          have hfene : g.fe ≠ i := fun he => hgne (fe_inj hP hgl1.1 hg1L (by omega))
          have h2 := hgl1.2.1
          have h3 := hgl1.2.2
          exact ⟨hgl1.1, by omega, by omega⟩
        · rintro ⟨hgL, h2, h3⟩
          have hgm : g ∈ h0 :: t := (hMem g).2 ⟨hgL, by omega, by omega⟩
          rcases List.mem_cons.1 hgm with rfl | hgt
          · exact absurd h3 (by omega)
          · exact hgt
      · rw [hred]
      · rw [hred]
      · rw [hred]
  · have hNoE : ¬∃ g ∈ L, g.fe = i := fun hex => heb ((hMe i hi).2 hex)
    have hred : popPhase fe st1 i = st1 := by
      unfold popPhase
      rw [if_neg heb]
    refine ⟨gl1, by rw [hred, hStack], hPW, ?_, by rw [hred, hHC], by rw [hred],
      by rw [hred]⟩
    intro g
    rw [hMem g]
    constructor
    · rintro ⟨h1, h2, h3⟩
      have hne : g.fe ≠ i := fun he => hNoE ⟨g, h1, he⟩
      exact ⟨h1, by omega, by omega⟩
    · rintro ⟨h1, h2, h3⟩
      exact ⟨h1, by omega, by omega⟩

theorem scanInv_step (L : List FoldRange) (fs fe ex : List Bool) (n : Nat)
    (hP : ProperConfig L)
    (hMs : ∀ i, i < n → (fs.getD i false = true ↔ ∃ g ∈ L, g.fs = i))
    (hMe : ∀ i, i < n → (fe.getD i false = true ↔ ∃ g ∈ L, g.fe = i))
    (hMx : ∀ g ∈ L, ex.getD g.fs false = g.exp)
    (i : Nat) (hi : i < n) (st : ScanState) (h : ScanInv L n i st) :
    ScanInv L n (i + 1) (scanLine fs fe ex st i) := by
  obtain ⟨hEP, hLen, hLow, hHigh, hHC, gl, hStack, hPW, hMem⟩ := h
  set st0 : ScanState := { st with filtered := st.filtered.set i (!st.hasClosed) }
    with hst0
  have hS0 : st0.stack = gl.map FoldRange.exp := hStack
  have hHC0 : st0.hasClosed = st0.stack.contains false := hHC
  obtain ⟨gl1, hS1, hPW1, hMem1, hHC1, hF1, hE1⟩ :=
    pushPhase_inv L fs ex n hP hMs hMx i hi st0 gl hS0 hPW hMem hHC0
  obtain ⟨gl2, hS2, hPW2, hMem2, hHC2, hF2, hE2⟩ :=
    popPhase_inv L fe n hP hMe i hi (pushPhase fs ex st0 i) gl1 hS1 hPW1 hMem1 hHC1
  show ScanInv L n (i + 1) (popPhase fe (pushPhase fs ex st0 i) i)
  have hHid : st.hasClosed = true ↔ hiddenAt L i := by
    rw [hHC, hStack]
    constructor
    · intro hcont
      have hfm : false ∈ gl.map FoldRange.exp := by
        simpa [List.contains] using hcont
      obtain ⟨g, hgl, hexp⟩ := List.mem_map.1 hfm
      obtain ⟨hgL, h1, h2⟩ := (hMem g).1 hgl
      exact ⟨g, hgL, hexp, h1, h2⟩
    · rintro ⟨g, hgL, hexp, h1, h2⟩
      have hgl : g ∈ gl := (hMem g).2 ⟨hgL, h1, h2⟩
      have hfm : false ∈ gl.map FoldRange.exp := List.mem_map.2 ⟨g, hgl, hexp⟩
      simpa [List.contains] using hfm
  refine ⟨?_, ?_, ?_, ?_, hHC2, gl2, hS2, hPW2, hMem2⟩
  · rw [hE2, hE1]
    exact hEP
  · rw [hF2, hF1]
    show (st.filtered.set i (!st.hasClosed)).length = n
    rw [List.length_set]
    exact hLen
  · intro j hj
    rw [hF2, hF1]
    show (st.filtered.set i (!st.hasClosed)).getD j false = true ↔ ¬ hiddenAt L j
    rcases Nat.lt_or_ge j i with hji | hji
    · rw [getD_set_ne _ _ _ _ (by omega)]
      exact hLow j hji
    · have hjeq : j = i := by omega
      subst hjeq
      rw [getD_set_self _ _ _ (by omega)]
      constructor
      · intro hb hh
        have h1 := hHid.2 hh
        rw [h1] at hb
        simp at hb
      · intro hh
        have hcl : st.hasClosed = false := by
          cases hc : st.hasClosed
          · rfl
          · exact absurd (hHid.1 hc) hh
        rw [hcl]
        rfl
  · intro j hj1 hj2
    rw [hF2, hF1]
    show (st.filtered.set i (!st.hasClosed)).getD j false = true
    rw [getD_set_ne _ _ _ _ (by omega)]
    exact hHigh j (by omega) hj2

theorem scanInv_init (L : List FoldRange) (n : Nat) :
    ScanInv L n 0
      { filtered := List.replicate n true, stack := [], hasClosed := false,
        emptyPop := false } := by
  refine ⟨rfl, by simp, fun j hj => absurd hj (by omega),
    fun j h1 h2 => getD_replicate_lt n j true h2, rfl, [], rfl,
    List.Pairwise.nil, fun g => ?_⟩
  simp

theorem scanFolds_char (f : Folds) (L : List FoldRange)
    (hP : ProperConfig L) (hM : foldsMatch f L) :
    (scanFolds f).emptyPop = false ∧ (scanFolds f).stack = [] ∧
    (scanFolds f).filtered.length = f._filteredLines.length ∧
    (∀ j, j < f._filteredLines.length →
      ((scanFolds f).filtered.getD j false = true ↔ ¬ hiddenAt L j)) := by
  obtain ⟨hMs, hMe, hMx, hMb⟩ := hM
  have key : ScanInv L f._filteredLines.length f._filteredLines.length (scanFolds f) :=
    foldl_range_inv f._filteredLines.length _ _ (ScanInv L f._filteredLines.length)
      (scanInv_init L _)
      (fun i st hi hinv => scanInv_step L f._foldStarts f._foldEnds f._expanded
        f._filteredLines.length hP hMs hMe hMx i hi st hinv)
  obtain ⟨hEP, hLen, hLow, hHigh, hHC, gl, hStack, hPW, hMem⟩ := key
  have hgl : gl = [] := by
    rw [List.eq_nil_iff_forall_not_mem]
    intro g hg
    obtain ⟨hgL, h1, h2⟩ := (hMem g).1 hg
    have := hMb g hgL
    omega
  subst hgl
  exact ⟨hEP, by rw [hStack]; rfl, hLen, hLow⟩

/-! The claim theorems. -/

/-- C2: for every start <= end and every value of the open argument, setFold
leaves the expanded bit of the start line false, and the resulting expanded
bitmap does not depend on the open argument at all. -/
theorem setFold_starts_collapsed (f : Folds) (s e : Nat) (b : Bool) (_hse : s ≤ e) :
    (f.setFold s e b)._expanded.getD s false = false ∧
    (f.setFold s e true)._expanded = (f.setFold s e false)._expanded := by
  refine ⟨?_, rfl⟩
  unfold Folds.setFold
  rcases Nat.lt_or_ge s f._expanded.length with hl | hl
  · simpa using getD_set_self f._expanded s false hl
  · exact getD_false_of_le _ _ (by simpa using hl)

/-- Witness for C2 at the fold 1..3 over five lines. -/
theorem setFold_starts_collapsed_witness :
    (((Folds.init.setLineCount 5).setFold 1 3 true)._expanded.getD 1 false = false) ∧
    ((Folds.init.setLineCount 5).setFold 1 3 true)._expanded =
      ((Folds.init.setLineCount 5).setFold 1 3 false)._expanded :=
  setFold_starts_collapsed (Folds.init.setLineCount 5) 1 3 true (by decide)

/-- C5: on a 10-line buffer whose text matches the pattern only on line 5,
building the filter folds and materialising the full window copies exactly
buffer lines 0, 5 and 9 plus the cursor line, and the visibility bitmap
keeps exactly lines 0, 5 and 9 visible. -/
theorem filter_matches_line5_rendering (c : Nat) (hc : c < 10) :
    (((c5Window c).createFilterFolds false (fun i => i == 5)).getFilteredImage 0 9).2 =
      (List.range 10).filter (fun i => i = 0 ∨ i = 5 ∨ i = 9 ∨ i = c) ∧
    (∀ i, i < 10 →
      ((((c5Window c).createFilterFolds false (fun i => i == 5)).getFilteredImage 0 9).1.isLineVisible i
        = decide (i = 0 ∨ i = 5 ∨ i = 9))) := by
  revert hc
  revert c
  decide

/-- Witness for C5 with the cursor on line 3. -/
theorem filter_matches_line5_rendering_witness :
    (((c5Window 3).createFilterFolds false (fun i => i == 5)).getFilteredImage 0 9).2 =
      (List.range 10).filter (fun i => i = 0 ∨ i = 5 ∨ i = 9 ∨ i = 3) ∧
    (∀ i, i < 10 →
      ((((c5Window 3).createFilterFolds false (fun i => i == 5)).getFilteredImage 0 9).1.isLineVisible i
        = decide (i = 0 ∨ i = 5 ∨ i = 9))) :=
  filter_matches_line5_rendering 3 (by decide)

/-- C6: applying an empty filter clears every fold (fold count zero, no
start bit left) and the visible line count of the window equals the total
line count again. -/
theorem empty_filter_restores_visibility (w : ScreenWindow) (matchLine : Nat → Bool) :
    (w.createFilterFolds true matchLine)._folds.count = 0 ∧
    (∀ i, (w.createFilterFolds true matchLine)._folds._foldStarts.getD i false = false) ∧
    (w.createFilterFolds true matchLine).visibleLineCount = w.lineCount := by
  refine ⟨?_, ?_, ?_⟩
  · simp [ScreenWindow.createFilterFolds, Folds.removeAll, Folds.count]
  · intro i
    simp only [ScreenWindow.createFilterFolds, Folds.removeAll, if_pos]
    exact getD_replicate_false _ i
  · simp [ScreenWindow.createFilterFolds, Folds.removeAll, Folds.count,
      ScreenWindow.visibleLineCount, ScreenWindow.lineCount]

/-- C7: scrollTo clamps its argument into the closed interval from 0 to
lineCount - windowLines, stores the clamped value as the top line, and adds
the difference with the previously stored top line to the scroll counter. -/
theorem scrollTo_clamps (w : ScreenWindow) (line : Int)
    (h : (w._windowLines : Int) ≤ (w.lineCount : Int)) :
    (w.scrollTo line)._currentLine = qBound 0 line ((w.lineCount : Int) - (w._windowLines : Int)) ∧
    0 ≤ (w.scrollTo line)._currentLine ∧
    (w.scrollTo line)._currentLine ≤ (w.lineCount : Int) - (w._windowLines : Int) ∧
    ((w.lineCount : Int) - (w._windowLines : Int) < line →
      (w.scrollTo line)._currentLine = (w.lineCount : Int) - (w._windowLines : Int)) ∧
    (line < 0 → (w.scrollTo line)._currentLine = 0) ∧
    (0 ≤ line → line ≤ (w.lineCount : Int) - (w._windowLines : Int) →
      (w.scrollTo line)._currentLine = line) ∧
    (w.scrollTo line)._scrollCount =
      w._scrollCount + ((w.scrollTo line)._currentLine - w._currentLine) := by
  have hc : (w.scrollTo line)._currentLine =
      qBound 0 line ((w.lineCount : Int) - (w._windowLines : Int)) := rfl
  have hs : (w.scrollTo line)._scrollCount =
      w._scrollCount + ((w.scrollTo line)._currentLine - w._currentLine) := rfl
  refine ⟨hc, ?_, ?_, ?_, ?_, ?_, hs⟩ <;> rw [hc] <;> unfold qBound <;> omega

/-- Witness for C7: a 30-line buffer, 10-line window, scrolling to 100
clamps to 20. -/
theorem scrollTo_clamps_witness :
    let w : ScreenWindow :=
      { _screen := { histLines := 20, lines := 10, columns := 80, cursorY := 0 },
        _folds := Folds.init, _windowLines := 10, _currentLine := 4,
        _trackOutput := false, _scrollCount := 7,
        _bufferNeedsUpdate := false, _filterNeedsUpdate := false }
    (w.scrollTo 100)._currentLine = 20 ∧ (w.scrollTo 100)._scrollCount = 7 + 16 := by
  intro w
  have h := scrollTo_clamps w 100 (by decide)
  have h1 : (w.scrollTo 100)._currentLine = 20 := by
    have := h.2.2.2.1 (by decide)
    simpa [ScreenWindow.lineCount] using this
  refine ⟨h1, ?_⟩
  rw [h.2.2.2.2.2.2, h1]
  decide

/-- C8: currentLine is the full clamp qBound(0, stored, visibleLineCount -
windowLines): in the normal case a stored value above the upper bound
saturates to the bound, a negative stored value saturates to 0, an in-range
stored value is returned unchanged, and the result always lies in the
interval; when visibleLineCount < windowLines the bounds invert and the
result is 0 for every stored value. -/
theorem currentLine_clamped (w : ScreenWindow) :
    w.currentLine =
      qBound 0 w._currentLine ((w.visibleLineCount : Int) - (w._windowLines : Int)) ∧
    ((w.visibleLineCount : Int) < (w._windowLines : Int) → w.currentLine = 0) ∧
    ((w._windowLines : Int) ≤ (w.visibleLineCount : Int) →
      0 ≤ w.currentLine ∧
      w.currentLine ≤ (w.visibleLineCount : Int) - (w._windowLines : Int) ∧
      (w._currentLine < 0 → w.currentLine = 0) ∧
      ((w.visibleLineCount : Int) - (w._windowLines : Int) < w._currentLine →
        w.currentLine = (w.visibleLineCount : Int) - (w._windowLines : Int)) ∧
      (0 ≤ w._currentLine →
        w._currentLine ≤ (w.visibleLineCount : Int) - (w._windowLines : Int) →
        w.currentLine = w._currentLine)) := by
  have heq : w.currentLine =
      qBound 0 w._currentLine ((w.visibleLineCount : Int) - (w._windowLines : Int)) := rfl
  refine ⟨heq, ?_, ?_⟩
  · rw [heq]; unfold qBound; intro h; omega
  · rw [heq]; unfold qBound; intro h
    refine ⟨by omega, by omega, by omega, by omega, by omega⟩

/-- Witness for C8: a window taller than the buffer reports top line 0 even
for a large stored value, and a 20-line buffer with a 10-line window
saturates a stored value of 42 to the bound 10 and a stored value of -3
to 0. -/
theorem currentLine_clamped_witness :
    let w : ScreenWindow :=
      { _screen := { histLines := 0, lines := 5, columns := 80, cursorY := 0 },
        _folds := Folds.init, _windowLines := 10, _currentLine := 42,
        _trackOutput := false, _scrollCount := 0,
        _bufferNeedsUpdate := false, _filterNeedsUpdate := false }
    let whigh : ScreenWindow :=
      { _screen := { histLines := 15, lines := 5, columns := 80, cursorY := 0 },
        _folds := Folds.init, _windowLines := 10, _currentLine := 42,
        _trackOutput := false, _scrollCount := 0,
        _bufferNeedsUpdate := false, _filterNeedsUpdate := false }
    let wneg : ScreenWindow :=
      { _screen := { histLines := 15, lines := 5, columns := 80, cursorY := 0 },
        _folds := Folds.init, _windowLines := 10, _currentLine := -3,
        _trackOutput := false, _scrollCount := 0,
        _bufferNeedsUpdate := false, _filterNeedsUpdate := false }
    w.currentLine = 0 ∧ whigh.currentLine = 10 ∧ wneg.currentLine = 0 := by
  intro w whigh wneg
  refine ⟨(currentLine_clamped w).2.1 (by decide), ?_, ?_⟩
  · have h := ((currentLine_clamped whigh).2.2 (by decide)).2.2.2.1 (by decide)
    simpa [ScreenWindow.visibleLineCount, ScreenWindow.lineCount] using h
  · exact ((currentLine_clamped wneg).2.2 (by decide)).2.2.1 (by decide)

/-- Counterexample to C9 as stated: growing the line count from 3 to 5 over
a collapsed fold resets the hidden bit of line 1 in the filtered-lines
bitmap back to visible, so the existing bits of that vector are not
preserved. -/
theorem setLineCount_cex :
    ((((Folds.init.setLineCount 3).setFold 0 2 true).updateVisibleLines)._filteredLines.getD 1 false
        = false) ∧
    (((((Folds.init.setLineCount 3).setFold 0 2 true).updateVisibleLines).setLineCount 5)._filteredLines.getD 1 false
        = true) := by decide

/-- C9 amended: setLineCount is a no-op when the stored length equals n;
otherwise it resizes, preserving the in-range bits of the fold-start,
fold-end and expanded vectors, while the raw filtered-lines bitmap is reset
wholly to visible (so newly added positions default to visible). -/
theorem setLineCount_resizes (f : Folds) (n : Nat) :
    (f._foldStarts.length = n → f.setLineCount n = f) ∧
    (f._foldStarts.length ≠ n →
      (∀ i, i < n →
        (f.setLineCount n)._foldStarts.getD i false = f._foldStarts.getD i false ∧
        (f.setLineCount n)._foldEnds.getD i false = f._foldEnds.getD i false ∧
        (f.setLineCount n)._expanded.getD i false = f._expanded.getD i false) ∧
      (f.setLineCount n)._filteredLines = List.replicate n true) := by
  constructor
  · intro h
    simp [Folds.setLineCount, h]
  · intro h
    refine ⟨fun i hi => ?_, ?_⟩
    · simp only [Folds.setLineCount, if_pos h]
      exact ⟨resizeBits_getD _ _ _ hi, resizeBits_getD _ _ _ hi, resizeBits_getD _ _ _ hi⟩
    · simp [Folds.setLineCount, h]

/-- Witness for C9 amended: growing from 3 lines to 5 preserves the fold
bits of lines 0..2 and resets the filtered bitmap. -/
theorem setLineCount_resizes_witness :
    let f := (Folds.init.setLineCount 3).setFold 0 2 true
    (f.setLineCount 5)._foldStarts.getD 0 false = f._foldStarts.getD 0 false ∧
    (f.setLineCount 5)._filteredLines = List.replicate 5 true := by
  intro f
  have h := (setLineCount_resizes f 5).2 (by decide)
  exact ⟨(h.1 0 (by decide)).1, h.2⟩

/-- C1: after updateVisibleLines on a properly nested fold configuration,
every line strictly inside some collapsed fold (past the start line, up to
and including the end line) is reported not visible by isLineVisible, and
every line enclosed only by expanded folds, or by no fold, is reported
visible. -/
theorem collapsed_folds_hide_inner_lines (f : Folds) (L : List FoldRange)
    (hP : ProperConfig L) (hM : foldsMatch f L) (i : Nat)
    (hi : i < f._filteredLines.length) :
    ((∃ g ∈ L, g.exp = false ∧ g.fs < i ∧ i ≤ g.fe) →
      (f.updateVisibleLines).isLineVisible i = false) ∧
    ((∀ g ∈ L, g.fs < i → i ≤ g.fe → g.exp = true) →
      (f.updateVisibleLines).isLineVisible i = true) := by
  obtain ⟨hEP, hStk, hLen, hVis⟩ := scanFolds_char f L hP hM
  have hup : (f.updateVisibleLines).isLineVisible i =
      (scanFolds f).filtered.getD i false := rfl
  constructor
  · intro hh
    rw [hup]
    cases hb : (scanFolds f).filtered.getD i false
    · rfl
    · exact absurd hh ((hVis i hi).1 hb)
  · intro hall
    rw [hup]
    refine (hVis i hi).2 ?_
    rintro ⟨g, hgL, hexp, h1, h2⟩
    have := hall g hgL h1 h2
    rw [this] at hexp
    simp at hexp

/-- Witness for C1: a single collapsed fold over lines 1..4 of six lines
hides line 2 and leaves line 5 visible. -/
theorem collapsed_folds_hide_inner_lines_witness :
    (((Folds.init.setLineCount 6).setFold 1 4 true).updateVisibleLines).isLineVisible 2
      = false ∧
    (((Folds.init.setLineCount 6).setFold 1 4 true).updateVisibleLines).isLineVisible 5
      = true := by
  have h2 := collapsed_folds_hide_inner_lines
    ((Folds.init.setLineCount 6).setFold 1 4 true)
    [⟨1, 4, false⟩] (by decide) (by decide) 2 (by decide)
  have h5 := collapsed_folds_hide_inner_lines
    ((Folds.init.setLineCount 6).setFold 1 4 true)
    [⟨1, 4, false⟩] (by decide) (by decide) 5 (by decide)
  refine ⟨h2.1 ⟨⟨1, 4, false⟩, by decide, by decide, by decide, by decide⟩,
    h5.2 ?_⟩
  decide

/-- C3: on a properly nested fold configuration the updateVisibleLines pass
never pops an empty enclosing-fold stack and finishes with the stack
empty. -/
theorem scan_stack_balanced (f : Folds) (L : List FoldRange)
    (hP : ProperConfig L) (hM : foldsMatch f L) :
    (scanFolds f).emptyPop = false ∧ (scanFolds f).stack = [] := by
  obtain ⟨hEP, hStk, hLen, hVis⟩ := scanFolds_char f L hP hM
  exact ⟨hEP, hStk⟩

/-- Witness for C3: two nested folds over eight lines scan with a balanced
stack. -/
theorem scan_stack_balanced_witness :
    (scanFolds (((Folds.init.setLineCount 8).setFold 1 6 true).setFold 2 3 true)).emptyPop
      = false ∧
    (scanFolds (((Folds.init.setLineCount 8).setFold 1 6 true).setFold 2 3 true)).stack
      = [] :=
  scan_stack_balanced (((Folds.init.setLineCount 8).setFold 1 6 true).setFold 2 3 true)
    [⟨1, 6, false⟩, ⟨2, 3, false⟩] (by decide) (by decide)

/-- C4: after updateVisibleLines, the visible line count reported by Folds
equals the number of true bits in the visibility bitmap (in every reachable
state: folding enabled, or no fold bits set at all), and a window whose fold
count is zero reports visibleLineCount equal to lineCount. -/
theorem visibleLineCount_counts_true_bits (f : Folds) (w : ScreenWindow)
    (h : f._enabled = true ∨ (∀ i, i < f._filteredLines.length →
      f._foldStarts.getD i false = false ∧ f._foldEnds.getD i false = false))
    (hw : w._folds.count = 0) :
    (f.updateVisibleLines).visibleLineCount =
      (f.updateVisibleLines)._filteredLines.count true ∧
    w.visibleLineCount = w.lineCount := by
  constructor
  · by_cases he : f._enabled = true
    · simp [Folds.updateVisibleLines, Folds.visibleLineCount, he]
    · have he' : f._enabled = false := by
        cases hc : f._enabled
        · rfl
        · exact absurd hc he
      rcases h with hen | hns
      · exact absurd hen he
      · have hM : foldsMatch f [] := by
          refine ⟨fun i hi => ?_, fun i hi => ?_, by simp, by simp⟩
          · rw [(hns i hi).1]
            simp
          · rw [(hns i hi).2]
            simp
        have hP : ProperConfig ([] : List FoldRange) := ⟨by simp, List.Pairwise.nil⟩
        obtain ⟨hEP, hStk, hLen, hVis⟩ := scanFolds_char f [] hP hM
        have hall : ∀ j, j < (scanFolds f).filtered.length →
            (scanFolds f).filtered.getD j false = true := by
          intro j hj
          rw [hLen] at hj
          refine (hVis j hj).2 ?_
          rintro ⟨g, hgL, _⟩
          exact absurd hgL (List.not_mem_nil g)
        have hcount := count_true_of_all_true _ hall
        simp [Folds.updateVisibleLines, Folds.visibleLineCount, he', hcount]
  · simp [ScreenWindow.visibleLineCount, hw]

/-- Witness for C4: the collapsed fold 1..4 over six lines leaves three
visible lines, and a fresh window with no folds reports all ten lines. -/
theorem visibleLineCount_counts_true_bits_witness :
    ((((Folds.init.setLineCount 6).setFold 1 4 true).updateVisibleLines).visibleLineCount
      = (((Folds.init.setLineCount 6).setFold 1 4 true).updateVisibleLines)._filteredLines.count true) ∧
    (c5Window 0).visibleLineCount = (c5Window 0).lineCount :=
  visibleLineCount_counts_true_bits ((Folds.init.setLineCount 6).setFold 1 4 true)
    (c5Window 0) (Or.inl (by decide)) (by decide)

/-- C10: a collapsed fold with start strictly below end that is not nested
inside another collapsed fold keeps its start line visible while its end
line is hidden after updateVisibleLines. -/
theorem fold_start_visible_end_hidden (f : Folds) (L : List FoldRange)
    (hP : ProperConfig L) (hM : foldsMatch f L) (g0 : FoldRange) (hg : g0 ∈ L)
    (hx : g0.exp = false) (hlt : g0.fs < g0.fe)
    (hout : ∀ g ∈ L, g.exp = false → ¬(g.fs < g0.fs ∧ g0.fe < g.fe)) :
    (f.updateVisibleLines).isLineVisible g0.fs = true ∧
    (f.updateVisibleLines).isLineVisible g0.fe = false := by
  have hfe_n := hM.2.2.2 g0 hg
  have hstart := collapsed_folds_hide_inner_lines f L hP hM g0.fs (by omega)
  have hstop := collapsed_folds_hide_inner_lines f L hP hM g0.fe (by omega)
  constructor
  · refine hstart.2 ?_
    intro g hgL hlt2 hle2
    by_contra hne
    have hexp : g.exp = false := by
      cases hge : g.exp
      · rfl
      · exact absurd hge hne
    have hgne : g ≠ g0 := by
      intro he
      subst he
      omega
    have hpp := properPair_of_mem hP hgL hg hgne
    have hb1 := hP.1 g hgL
    have hb2 := hP.1 g0 hg
    unfold ProperPair at hpp
    rcases hpp with hc | hc | hc | hc
    · omega
    · omega
    · exact hout g hgL hexp hc
    · omega
  · exact hstop.1 ⟨g0, hg, hx, hlt, le_rfl⟩

/-- Witness for C10: the outermost collapsed fold 1..4 over six lines has
line 1 visible and line 4 hidden. -/
theorem fold_start_visible_end_hidden_witness :
    (((Folds.init.setLineCount 6).setFold 1 4 true).updateVisibleLines).isLineVisible 1
      = true ∧
    (((Folds.init.setLineCount 6).setFold 1 4 true).updateVisibleLines).isLineVisible 4
      = false :=
  fold_start_visible_end_hidden ((Folds.init.setLineCount 6).setFold 1 4 true)
    [⟨1, 4, false⟩] (by decide) (by decide) ⟨1, 4, false⟩ (by decide) (by decide)
    (by decide) (by decide)

end Konsole
